import Mathlib

/-!
Shallow embedding of the investment-ideas record store
(`app/models.py` and `app/investment_service.py`).

Modelling conventions:
* Calendar dates and timestamps are abstract clock readings, modelled as `Nat`.
  Each service operation receives the clock values it samples as explicit
  parameters (`today` for `date.today()`, `now` for `datetime.utcnow()`); the
  two timestamp default factories of `InvestmentIdea.created_at` /
  `InvestmentIdea.updated_at` are sampled at the single instant the operation
  runs, so both receive the same `now`.
* The SQL session layer (`app/database.py`, not part of the service sources)
  is modelled from the spec as a per-operation transactional unit of work: an
  operation either commits its writes or fails atomically, leaving the store
  unchanged.  The store is the list of committed rows in insertion (rowid)
  order together with the next id the database will assign.
* Pydantic's distinction between a field that was never set and a field
  explicitly set to `None` (`model_dump(exclude_unset=True)`) is modelled in
  `InvestmentIdeaUpdate` by a double `Option`: the outer layer records
  membership in the fields-set, the inner layer is the `Optional[...]` payload.
* `setattr` on a table model performs no validation, so an applied update
  value lands raw on the Python object (`PyInvestmentIdea`, whose columns may
  transiently hold `None`); the commit then enforces the NOT NULL column
  constraints generated from the non-`Optional` annotations of
  `InvestmentIdea`, failing the transaction if violated.
-/

namespace InvestmentIdeas

/-- The four lifecycle stages of `InvestmentStatus` in `app/models.py`. -/
inductive InvestmentStatus where
  | researching
  | watchlist
  | invested
  | rejected
deriving DecidableEq, Repr

/-- The persistent table model `InvestmentIdea` (`app/models.py`): `id` is
`Optional[int]`, assigned by the database at insert; every other column is
non-nullable. -/
structure InvestmentIdea where
  id : Option Nat
  title : String
  description : String
  idea_date : Nat
  status : InvestmentStatus
  notes : String
  created_at : Nat
  updated_at : Nat
deriving DecidableEq, Repr

/-- The `InvestmentIdeaCreate` boundary view: `title` required, the remaining
fields carry the schema defaults (`""`, absent date, `RESEARCHING`, `""`). -/
structure InvestmentIdeaCreate where
  title : String
  description : String := ""
  idea_date : Option Nat := none
  status : InvestmentStatus := .researching
  notes : String := ""
deriving DecidableEq, Repr

/-- The `InvestmentIdeaUpdate` boundary view: every field `Optional`, default
`None`.  The outer `Option` records whether the field was explicitly set at
construction (pydantic's fields-set, as consumed by
`model_dump(exclude_unset=True)`); the inner `Option` is the field's
`Optional[...]` payload, so `some none` is a field explicitly passed as
`None`. -/
structure InvestmentIdeaUpdate where
  title : Option (Option String) := none
  description : Option (Option String) := none
  idea_date : Option (Option Nat) := none
  status : Option (Option InvestmentStatus) := none
  notes : Option (Option String) := none
deriving DecidableEq, Repr

/-- The `InvestmentIdeaRead` response view: all fields present, `id` an actual
integer. -/
structure InvestmentIdeaRead where
  id : Nat
  title : String
  description : String
  idea_date : Nat
  status : InvestmentStatus
  notes : String
  created_at : Nat
  updated_at : Nat
deriving DecidableEq, Repr

/-- `InvestmentIdeaRead.model_validate`: succeeds exactly when the row carries
an id (validation of the required `id: int` field). -/
def InvestmentIdeaRead.model_validate (e : InvestmentIdea) : Option InvestmentIdeaRead :=
  match e.id with
  | some i =>
      some { id := i, title := e.title, description := e.description,
             idea_date := e.idea_date, status := e.status, notes := e.notes,
             created_at := e.created_at, updated_at := e.updated_at }
  | none => none

/-- The durable store: committed rows in insertion (rowid) order, plus the id
the database will assign to the next inserted row. -/
structure Store where
  rows : List InvestmentIdea
  next_id : Nat
deriving DecidableEq, Repr

/-- A freshly created (or reset) database: no rows, first id 1. -/
def emptyStore : Store := { rows := [], next_id := 1 }

/-- Insert into a list ordered by `created_at` descending, after any element
with a `created_at` at least as large (so the sort below is stable). -/
def insertByCreatedDesc (x : InvestmentIdea) : List InvestmentIdea → List InvestmentIdea
  | [] => [x]
  | y :: ys =>
      if y.created_at < x.created_at then x :: y :: ys
      else y :: insertByCreatedDesc x ys

/-- `ORDER BY created_at DESC` over a result set, as a stable insertion sort on
the rows in rowid order. -/
def sortByCreatedDesc : List InvestmentIdea → List InvestmentIdea
  | [] => []
  | x :: xs => insertByCreatedDesc x (sortByCreatedDesc xs)

/-- The Python-runtime shape of a session-attached row after raw `setattr`
assignments: the non-nullable columns may transiently hold `None` because
table models do not validate on assignment. -/
structure PyInvestmentIdea where
  id : Option Nat
  title : Option String
  description : Option String
  idea_date : Option Nat
  status : Option InvestmentStatus
  notes : Option String
  created_at : Nat
  updated_at : Nat
deriving DecidableEq, Repr

/-- One `setattr(idea, field, value)` from the
`model_dump(exclude_unset=True)` loop: a field absent from the fields-set is
not assigned at all; a field present is assigned its raw payload, `None`
included. -/
def setattrField {α : Type} (cur : Option α) : Option (Option α) → Option α
  | none => cur
  | some v => v

/-- The field-assignment loop of `update_investment_idea` (lines 58-62):
apply every field in the update's fields-set, then unconditionally refresh
`updated_at` to the current timestamp.  `id` and `created_at` are not fields
of the update view and are never assigned. -/
def mergeUpdate (idea : InvestmentIdea) (update_data : InvestmentIdeaUpdate)
    (now : Nat) : PyInvestmentIdea :=
  { id := idea.id
    title := setattrField (some idea.title) update_data.title
    description := setattrField (some idea.description) update_data.description
    idea_date := setattrField (some idea.idea_date) update_data.idea_date
    status := setattrField (some idea.status) update_data.status
    notes := setattrField (some idea.notes) update_data.notes
    created_at := idea.created_at
    updated_at := now }

/-- Committing a session row: the NOT NULL constraints of the generated schema
(every column of `InvestmentIdea` except `id` is non-`Optional`) must hold, or
the transaction fails. -/
def commitRow (p : PyInvestmentIdea) : Option InvestmentIdea :=
  match p.title, p.description, p.idea_date, p.status, p.notes with
  | some t, some d, some dt, some st, some n =>
      some { id := p.id, title := t, description := d, idea_date := dt,
             status := st, notes := n,
             created_at := p.created_at, updated_at := p.updated_at }
  | _, _, _, _, _ => none

/-- Replace the row holding primary key `idea_id` (primary keys are unique in
a committed store). -/
def replaceById (rows : List InvestmentIdea) (idea_id : Nat)
    (e' : InvestmentIdea) : List InvestmentIdea :=
  rows.map (fun e => if e.id = some idea_id then e' else e)

namespace InvestmentService

/-- `InvestmentService.create_investment_idea`.  Defaults `idea_date` to
today's date by writing it back into the caller's input object, builds the
row, commits it (the database assigns `next_id`), and returns the validated
read view.  The returned triple is (read view, the caller's input object as
left by the call, the store after commit). -/
def create_investment_idea (s : Store) (idea_data : InvestmentIdeaCreate)
    (today now : Nat) :
    Option InvestmentIdeaRead × InvestmentIdeaCreate × Store :=
  let idea_data' :=
    if idea_data.idea_date = none then { idea_data with idea_date := some today }
    else idea_data
  let investment_idea : InvestmentIdea :=
    { id := some s.next_id
      title := idea_data'.title
      description := idea_data'.description
      idea_date := idea_data'.idea_date.getD today
      status := idea_data'.status
      notes := idea_data'.notes
      created_at := now
      updated_at := now }
  (InvestmentIdeaRead.model_validate investment_idea, idea_data',
   { rows := s.rows ++ [investment_idea], next_id := s.next_id + 1 })

/-- `InvestmentService.get_all_investment_ideas`: select every row ordered by
`created_at` descending and validate each into a read view (`none` models a
raised validation error, impossible on committed rows). -/
def get_all_investment_ideas (s : Store) : Option (List InvestmentIdeaRead) :=
  (sortByCreatedDesc s.rows).mapM InvestmentIdeaRead.model_validate

/-- `InvestmentService.get_investment_idea_by_id`: primary-key lookup,
returning `none` (Python `None`) when the id does not exist. -/
def get_investment_idea_by_id (s : Store) (idea_id : Nat) :
    Option InvestmentIdeaRead :=
  match s.rows.find? (fun e => decide (e.id = some idea_id)) with
  | none => none
  | some idea => InvestmentIdeaRead.model_validate idea

/-- `InvestmentService.update_investment_idea`: `none` result (Python `None`)
when the id does not exist; otherwise apply the fields-set of `update_data`,
refresh `updated_at`, and commit.  `Except.error` models the transaction
failing (and rolling back) on a NOT NULL violation. -/
def update_investment_idea (s : Store) (idea_id : Nat)
    (update_data : InvestmentIdeaUpdate) (now : Nat) :
    Except String (Option InvestmentIdeaRead × Store) :=
  match s.rows.find? (fun e => decide (e.id = some idea_id)) with
  | none => .ok (none, s)
  | some idea =>
      match commitRow (mergeUpdate idea update_data now) with
      | none => .error "NOT NULL constraint failed"
      | some idea' =>
          .ok (InvestmentIdeaRead.model_validate idea',
               { s with rows := replaceById s.rows idea_id idea' })

/-- `InvestmentService.delete_investment_idea`: `false` and no mutation when
the id does not exist, else remove the row and return `true`. -/
def delete_investment_idea (s : Store) (idea_id : Nat) : Bool × Store :=
  match s.rows.find? (fun e => decide (e.id = some idea_id)) with
  | none => (false, s)
  | some _ =>
      (true,
       { s with rows := s.rows.eraseP (fun e => decide (e.id = some idea_id)) })

/-- `InvestmentService.get_ideas_by_status`: rows whose `status` equals the
given value, ordered by `created_at` descending, each validated into a read
view. -/
def get_ideas_by_status (s : Store) (status : InvestmentStatus) :
    Option (List InvestmentIdeaRead) :=
  (sortByCreatedDesc (s.rows.filter (fun e => decide (e.status = status)))).mapM
    InvestmentIdeaRead.model_validate

end InvestmentService

/-- The read view of a committed row as a plain field copy; agrees with
`InvestmentIdeaRead.model_validate` whenever the row has an id. -/
def readOf (e : InvestmentIdea) : InvestmentIdeaRead :=
  { id := e.id.getD 0, title := e.title, description := e.description,
    idea_date := e.idea_date, status := e.status, notes := e.notes,
    created_at := e.created_at, updated_at := e.updated_at }

lemma model_validate_eq_readOf {e : InvestmentIdea} (h : e.id ≠ none) :
    InvestmentIdeaRead.model_validate e = some (readOf e) := by
  cases hid : e.id with
  | none => exact absurd hid h
  | some i => simp [InvestmentIdeaRead.model_validate, readOf, hid]

lemma mapM_model_validate (L : List InvestmentIdea)
    (h : ∀ e ∈ L, e.id ≠ none) :
    L.mapM InvestmentIdeaRead.model_validate = some (L.map readOf) := by
  induction L with
  | nil => rfl
  | cons x xs ih =>
      rw [List.mapM_cons, model_validate_eq_readOf (h x (List.mem_cons_self x xs)),
        ih (fun e he => h e (List.mem_cons_of_mem x he))]
      rfl

lemma insertByCreatedDesc_perm (x : InvestmentIdea) (l : List InvestmentIdea) :
    (insertByCreatedDesc x l).Perm (x :: l) := by
  induction l with
  | nil => exact List.Perm.refl _
  | cons y ys ih =>
      rw [insertByCreatedDesc]
      by_cases hc : y.created_at < x.created_at
      · rw [if_pos hc]
      · rw [if_neg hc]
        exact (ih.cons y).trans (List.Perm.swap x y ys)

lemma sortByCreatedDesc_perm (l : List InvestmentIdea) :
    (sortByCreatedDesc l).Perm l := by
  induction l with
  | nil => exact List.Perm.refl _
  | cons x xs ih =>
      rw [sortByCreatedDesc]
      exact (insertByCreatedDesc_perm x (sortByCreatedDesc xs)).trans (ih.cons x)

lemma pairwise_insertByCreatedDesc (x : InvestmentIdea) (l : List InvestmentIdea)
    (h : l.Pairwise (fun a b => b.created_at ≤ a.created_at)) :
    (insertByCreatedDesc x l).Pairwise (fun a b => b.created_at ≤ a.created_at) := by
  induction l with
  | nil => simp [insertByCreatedDesc]
  | cons y ys ih =>
      rw [List.pairwise_cons] at h
      obtain ⟨hy, hys⟩ := h
      rw [insertByCreatedDesc]
      by_cases hc : y.created_at < x.created_at
      · rw [if_pos hc]
        refine List.Pairwise.cons ?_ (List.Pairwise.cons hy hys)
        intro z hz
        rcases List.mem_cons.mp hz with rfl | hz'
        · exact Nat.le_of_lt hc
        · exact le_trans (hy z hz') (Nat.le_of_lt hc)
      · rw [if_neg hc]
        refine List.Pairwise.cons ?_ (ih hys)
        intro z hz
        rcases List.mem_cons.mp ((insertByCreatedDesc_perm x ys).mem_iff.mp hz) with rfl | hz'
        · exact Nat.not_lt.mp hc
        · exact hy z hz'

lemma sorted_sortByCreatedDesc (l : List InvestmentIdea) :
    (sortByCreatedDesc l).Pairwise (fun a b => b.created_at ≤ a.created_at) := by
  induction l with
  | nil => simp [sortByCreatedDesc]
  | cons x xs ih => exact pairwise_insertByCreatedDesc x (sortByCreatedDesc xs) ih

instance : IsAntisymm InvestmentIdea (fun a b => b.created_at < a.created_at) :=
  ⟨fun _ _ h1 h2 => absurd h2 (Nat.lt_asymm h1)⟩

lemma strict_of_sorted_of_ne {l : List InvestmentIdea}
    (hs : l.Pairwise (fun a b => b.created_at ≤ a.created_at))
    (hn : l.Pairwise (fun a b => a.created_at ≠ b.created_at)) :
    l.Pairwise (fun a b => b.created_at < a.created_at) :=
  (hs.and hn).imp (fun h => Nat.lt_of_le_of_ne h.1 (Ne.symm h.2))

lemma sortByCreatedDesc_filter (rows : List InvestmentIdea) (p : InvestmentIdea → Bool)
    (hdist : rows.Pairwise (fun a b => a.created_at ≠ b.created_at)) :
    sortByCreatedDesc (rows.filter p) = (sortByCreatedDesc rows).filter p := by
  have hsym : ∀ {x y : InvestmentIdea},
      x.created_at ≠ y.created_at → y.created_at ≠ x.created_at := fun h => Ne.symm h
  have hperm : (sortByCreatedDesc (rows.filter p)).Perm
      ((sortByCreatedDesc rows).filter p) :=
    (sortByCreatedDesc_perm _).trans ((List.Perm.filter p (sortByCreatedDesc_perm rows)).symm)
  have hn1 : (sortByCreatedDesc (rows.filter p)).Pairwise
      (fun a b => a.created_at ≠ b.created_at) :=
    (List.Perm.pairwise_iff hsym (sortByCreatedDesc_perm (rows.filter p))).mpr
      (hdist.filter p)
  have hn2 : ((sortByCreatedDesc rows).filter p).Pairwise
      (fun a b => a.created_at ≠ b.created_at) :=
    List.Pairwise.filter p
      ((List.Perm.pairwise_iff hsym (sortByCreatedDesc_perm rows)).mpr hdist)
  exact List.eq_of_perm_of_sorted hperm
    (strict_of_sorted_of_ne (sorted_sortByCreatedDesc _) hn1)
    (strict_of_sorted_of_ne
      (List.Pairwise.filter p (sorted_sortByCreatedDesc rows)) hn2)

lemma find?_eraseP_of_disjoint (l : List InvestmentIdea)
    (p q : InvestmentIdea → Bool) (h : ∀ x ∈ l, q x = true → p x = false) :
    (l.eraseP q).find? p = l.find? p := by
  induction l with
  | nil => rfl
  | cons x xs ih =>
      rw [List.eraseP_cons]
      by_cases hq : q x = true
      · rw [hq, cond_true]
        have hp : p x = false := h x (List.mem_cons_self x xs) hq
        rw [List.find?_cons_of_neg _ (by simp [hp])]
      · rw [Bool.of_not_eq_true hq, cond_false]
        by_cases hp : p x = true
        · rw [List.find?_cons_of_pos _ hp, List.find?_cons_of_pos _ hp]
        · rw [List.find?_cons_of_neg _ hp, List.find?_cons_of_neg _ hp]
          exact ih (fun z hz => h z (List.mem_cons_of_mem x hz))

lemma find?_eraseP_id_self (l : List InvestmentIdea) (i : Nat)
    (hnd : l.Pairwise (fun a b => a.id ≠ b.id)) :
    (l.eraseP (fun e => decide (e.id = some i))).find?
      (fun e => decide (e.id = some i)) = none := by
  induction l with
  | nil => rfl
  | cons x xs ih =>
      rw [List.pairwise_cons] at hnd
      obtain ⟨hx, hxs⟩ := hnd
      rw [List.eraseP_cons]
      by_cases hq : x.id = some i
      · rw [decide_eq_true hq, cond_true, List.find?_eq_none]
        intro z hz
        simp only [decide_eq_true_eq]
        intro hzid
        exact hx z hz (hq.trans hzid.symm)
      · rw [decide_eq_false hq, cond_false,
          List.find?_cons_of_neg _ (by simp [hq])]
        exact ih hxs

/-- Sample committed row used to instantiate hypotheses at concrete inputs. -/
def sampleRow1 : InvestmentIdea :=
  { id := some 1, title := "A", description := "D", idea_date := 3,
    status := .researching, notes := "N", created_at := 0, updated_at := 0 }

/-- A second sample committed row with a later creation time. -/
def sampleRow2 : InvestmentIdea :=
  { id := some 2, title := "B", description := "", idea_date := 4,
    status := .watchlist, notes := "", created_at := 1, updated_at := 1 }

/-- A sample store holding the two sample rows. -/
def sampleStore : Store := { rows := [sampleRow1, sampleRow2], next_id := 3 }

/-- C2: for every valid create input, the returned entity carries the
system-assigned id (the store's next id) and its `created_at` equals its
`updated_at`, both being the operation's current timestamp. -/
theorem c2_create_fresh_id_and_identical_timestamps (s : Store)
    (c : InvestmentIdeaCreate) (today now : Nat) :
    ∃ r : InvestmentIdeaRead,
      (InvestmentService.create_investment_idea s c today now).1 = some r ∧
      r.id = s.next_id ∧ r.created_at = r.updated_at ∧ r.created_at = now := by
  by_cases h : c.idea_date = none <;>
    simp [InvestmentService.create_investment_idea, InvestmentIdeaRead.model_validate, h]

/-- C3: create inputs built from a title alone carry the schema defaults
(empty description, absent date, Researching, empty notes); an absent
`idea_date` is defaulted to today's date (server clock); and the returned
entity carries the input's description/status/notes and the defaulted date. -/
theorem c3_create_defaults (s : Store) (today now : Nat) (t : String) :
    (({ title := t } : InvestmentIdeaCreate).description = "" ∧
     ({ title := t } : InvestmentIdeaCreate).idea_date = none ∧
     ({ title := t } : InvestmentIdeaCreate).status = InvestmentStatus.researching ∧
     ({ title := t } : InvestmentIdeaCreate).notes = "") ∧
    (∀ c : InvestmentIdeaCreate, c.idea_date = none →
      ∃ r, (InvestmentService.create_investment_idea s c today now).1 = some r ∧
        r.idea_date = today ∧ r.description = c.description ∧
        r.status = c.status ∧ r.notes = c.notes) ∧
    (∃ r, (InvestmentService.create_investment_idea s { title := t } today now).1
            = some r ∧
      r.description = "" ∧ r.idea_date = today ∧
      r.status = InvestmentStatus.researching ∧ r.notes = "") := by
  refine ⟨⟨rfl, rfl, rfl, rfl⟩, ?_, ?_⟩
  · intro c hc
    simp [InvestmentService.create_investment_idea, InvestmentIdeaRead.model_validate, hc]
  · simp [InvestmentService.create_investment_idea, InvestmentIdeaRead.model_validate]

/-- Witness for C3 at a concrete input. -/
theorem c3_create_defaults_witness :
    ∃ r, (InvestmentService.create_investment_idea emptyStore
            { title := "x" } 7 9).1 = some r ∧
      r.idea_date = 7 ∧ r.description = "" ∧
      r.status = InvestmentStatus.researching ∧ r.notes = "" :=
  ((c3_create_defaults emptyStore 7 9 "x").2.1 { title := "x" } rfl)

/-- C6: `get_by_id` on an id held by no stored row returns the not-found
signal (`none`), never an error (the operation is a total function of the
store). -/
theorem c6_get_by_id_missing (s : Store) (i : Nat)
    (h : ∀ e ∈ s.rows, e.id ≠ some i) :
    InvestmentService.get_investment_idea_by_id s i = none := by
  have hf : s.rows.find? (fun e => decide (e.id = some i)) = none :=
    List.find?_eq_none.mpr (fun x hx => by simp [h x hx])
  simp [InvestmentService.get_investment_idea_by_id, hf]

/-- Witness for C6: id 999 on the empty store. -/
theorem c6_get_by_id_missing_witness :
    InvestmentService.get_investment_idea_by_id emptyStore 999 = none :=
  c6_get_by_id_missing emptyStore 999 (by simp [emptyStore])

/-- C7: `update` on an id held by no stored row returns the not-found signal
and the store is returned completely unchanged. -/
theorem c7_update_missing_id (s : Store) (i now : Nat) (u : InvestmentIdeaUpdate)
    (h : ∀ e ∈ s.rows, e.id ≠ some i) :
    InvestmentService.update_investment_idea s i u now = Except.ok (none, s) := by
  have hf : s.rows.find? (fun e => decide (e.id = some i)) = none :=
    List.find?_eq_none.mpr (fun x hx => by simp [h x hx])
  simp [InvestmentService.update_investment_idea, hf]

/-- Witness for C7: updating id 999 of the two-row sample store. -/
theorem c7_update_missing_id_witness :
    InvestmentService.update_investment_idea sampleStore 999
      { title := some (some "new") } 5 = Except.ok (none, sampleStore) :=
  c7_update_missing_id sampleStore 999 5 { title := some (some "new") }
    (by simp [sampleStore, sampleRow1, sampleRow2])

/-- C10: `create` mutates its caller-supplied input object: when the input's
`idea_date` is `None`, the object the caller passed comes back with its
`idea_date` field set to today's date (the service writes the default into
the input itself, not a copy). -/
theorem c10_create_mutates_input (s : Store) (c : InvestmentIdeaCreate)
    (today now : Nat) (h : c.idea_date = none) :
    (InvestmentService.create_investment_idea s c today now).2.1
      = { c with idea_date := some today } := by
  simp [InvestmentService.create_investment_idea, h]

/-- Witness for C10 at a concrete input. -/
theorem c10_create_mutates_input_witness :
    (InvestmentService.create_investment_idea emptyStore { title := "x" } 7 9).2.1
      = { ({ title := "x" } : InvestmentIdeaCreate) with idea_date := some 7 } :=
  c10_create_mutates_input emptyStore { title := "x" } 7 9 rfl

lemma commitRow_fields {p : PyInvestmentIdea} {e : InvestmentIdea}
    (h : commitRow p = some e) :
    e.id = p.id ∧ e.created_at = p.created_at ∧ e.updated_at = p.updated_at := by
  rcases p with ⟨pid, pt, pd, pdt, pst, pn, pc, pu⟩
  cases pt <;> cases pd <;> cases pdt <;> cases pst <;> cases pn <;>
    simp only [commitRow, Option.some.injEq] at h
  all_goals first
    | exact absurd h (by simp)
    | (subst h; exact ⟨rfl, rfl, rfl⟩)

lemma create_rows_shape (s : Store) (c : InvestmentIdeaCreate) (today now : Nat) :
    ∃ e : InvestmentIdea,
      (InvestmentService.create_investment_idea s c today now).2.2.rows
        = s.rows ++ [e] ∧
      e.id = some s.next_id ∧ e.created_at = now ∧ e.updated_at = now := by
  by_cases h : c.idea_date = none <;>
    simp [InvestmentService.create_investment_idea, h]

/-- C8: `delete` on an absent id returns `false` and performs no mutation;
on a present id it returns `true` and removes exactly that record: a
subsequent `get_by_id` on the deleted id is not-found, and lookups of every
other id are unaffected. -/
theorem c8_delete_semantics (s : Store) (i : Nat)
    (hnd : s.rows.Pairwise (fun a b => a.id ≠ b.id)) :
    ((∀ e ∈ s.rows, e.id ≠ some i) →
       InvestmentService.delete_investment_idea s i = (false, s)) ∧
    (∀ e ∈ s.rows, e.id = some i →
       (InvestmentService.delete_investment_idea s i).1 = true ∧
       (InvestmentService.delete_investment_idea s i).2.rows
         = s.rows.eraseP (fun x => decide (x.id = some i)) ∧
       InvestmentService.get_investment_idea_by_id
         (InvestmentService.delete_investment_idea s i).2 i = none ∧
       (∀ j, j ≠ i →
          InvestmentService.get_investment_idea_by_id
            (InvestmentService.delete_investment_idea s i).2 j
            = InvestmentService.get_investment_idea_by_id s j)) := by
  constructor
  · intro h
    have hf : s.rows.find? (fun e => decide (e.id = some i)) = none :=
      List.find?_eq_none.mpr (fun x hx => by simp [h x hx])
    simp [InvestmentService.delete_investment_idea, hf]
  · intro e he hei
    have hsome : (s.rows.find? (fun x => decide (x.id = some i))).isSome :=
      List.find?_isSome.mpr ⟨e, he, by simp [hei]⟩
    obtain ⟨w, hw⟩ := Option.isSome_iff_exists.mp hsome
    refine ⟨?_, ?_, ?_, ?_⟩
    · simp [InvestmentService.delete_investment_idea, hw]
    · simp [InvestmentService.delete_investment_idea, hw]
    · simp only [InvestmentService.delete_investment_idea, hw,
        InvestmentService.get_investment_idea_by_id]
      rw [find?_eraseP_id_self s.rows i hnd]
    · intro j hj
      simp only [InvestmentService.delete_investment_idea, hw,
        InvestmentService.get_investment_idea_by_id]
      rw [find?_eraseP_of_disjoint s.rows
        (fun x => decide (x.id = some j)) (fun x => decide (x.id = some i))
        (fun x _ hq => by
          simp only [decide_eq_true_eq] at hq
          simp only [hq, decide_eq_false_iff_not, Option.some.injEq]
          exact Ne.symm hj)]

/-- Witness for C8: deleting id 1 from the two-row sample store removes it,
after which id 1 is not-found while id 2 is still found. -/
theorem c8_delete_semantics_witness :
    (InvestmentService.delete_investment_idea sampleStore 1).1 = true ∧
    (InvestmentService.delete_investment_idea sampleStore 1).2.rows
      = sampleStore.rows.eraseP (fun x => decide (x.id = some 1)) ∧
    InvestmentService.get_investment_idea_by_id
      (InvestmentService.delete_investment_idea sampleStore 1).2 1 = none ∧
    (∀ j, j ≠ 1 →
       InvestmentService.get_investment_idea_by_id
         (InvestmentService.delete_investment_idea sampleStore 1).2 j
         = InvestmentService.get_investment_idea_by_id sampleStore j) :=
  (c8_delete_semantics sampleStore 1
      (by simp [sampleStore, sampleRow1, sampleRow2])).2
    sampleRow1 (by simp [sampleStore]) rfl

/-- C9: a successful update refreshes `updated_at` to the operation's current
timestamp while `created_at` keeps the value the targeted row already had;
given a clock that has not gone backwards, the invariant
`created_at ≤ updated_at` holds for every stored entity after update, create
and delete alike (update refreshes even when the partial input is empty,
since no field of the update view is consulted for the refresh). -/
theorem c9_updated_at_refresh_and_invariant (s : Store) (i now today j : Nat)
    (u : InvestmentIdeaUpdate) (c : InvestmentIdeaCreate)
    (hinv : ∀ e ∈ s.rows, e.created_at ≤ e.updated_at)
    (hnow : ∀ e ∈ s.rows, e.created_at ≤ now) :
    (∀ r s', InvestmentService.update_investment_idea s i u now
        = Except.ok (some r, s') →
      r.updated_at = now ∧
      (∃ e ∈ s.rows, e.id = some i ∧ r.created_at = e.created_at) ∧
      (∀ e' ∈ s'.rows, e'.created_at ≤ e'.updated_at)) ∧
    (∀ e' ∈ (InvestmentService.create_investment_idea s c today now).2.2.rows,
       e'.created_at ≤ e'.updated_at) ∧
    (∀ e' ∈ (InvestmentService.delete_investment_idea s j).2.rows,
       e'.created_at ≤ e'.updated_at) := by
  refine ⟨?_, ?_, ?_⟩
  · intro r s' heq
    cases hf : s.rows.find? (fun e => decide (e.id = some i)) with
    | none => simp [InvestmentService.update_investment_idea, hf] at heq
    | some idea =>
        cases hcm : commitRow (mergeUpdate idea u now) with
        | none => simp [InvestmentService.update_investment_idea, hf, hcm] at heq
        | some idea' =>
            have hmem : idea ∈ s.rows := List.mem_of_find?_eq_some hf
            have hei : idea.id = some i := by simpa using List.find?_some hf
            obtain ⟨hid', hc', hu'⟩ := commitRow_fields hcm
            have hidc : idea'.created_at = idea.created_at := hc'
            have hidu : idea'.updated_at = now := hu'
            have hidi : idea'.id = some i := by rw [hid']; exact hei
            simp only [InvestmentService.update_investment_idea, hf, hcm,
              @model_validate_eq_readOf idea' (by simp [hidi]), Except.ok.injEq,
              Prod.mk.injEq, Option.some.injEq] at heq
            obtain ⟨hr, hs'⟩ := heq
            refine ⟨?_, ⟨idea, hmem, hei, ?_⟩, ?_⟩
            · rw [← hr]; simpa [readOf] using hidu
            · rw [← hr]; simpa [readOf] using hidc
            · intro e' he'
              rw [← hs'] at he'
              simp only [replaceById, List.mem_map] at he'
              obtain ⟨e0, he0, heq0⟩ := he'
              by_cases h0 : e0.id = some i
              · rw [if_pos h0] at heq0
                rw [← heq0, hidc, hidu]
                exact hnow idea hmem
              · rw [if_neg h0] at heq0
                rw [← heq0]
                exact hinv e0 he0
  · obtain ⟨e, hrows, _, hcre, hupd⟩ := create_rows_shape s c today now
    intro e' he'
    rw [hrows] at he'
    rcases List.mem_append.mp he' with h1 | h1
    · exact hinv e' h1
    · rw [List.mem_singleton] at h1
      rw [h1, hcre, hupd]
  · intro e' he'
    cases hf : s.rows.find? (fun e => decide (e.id = some j)) with
    | none =>
        simp only [InvestmentService.delete_investment_idea, hf] at he'
        exact hinv e' he'
    | some w =>
        simp only [InvestmentService.delete_investment_idea, hf] at he'
        exact hinv e' (List.Sublist.mem he' (List.eraseP_sublist s.rows))

/-- Witness for C9: an empty partial update of sample row 1 at time 5
refreshes `updated_at` to 5, keeps `created_at` at 0, and the invariant holds
across the resulting store. -/
theorem c9_updated_at_refresh_witness :
    ({ id := 1, title := "A", description := "D", idea_date := 3,
       status := InvestmentStatus.researching, notes := "N",
       created_at := 0, updated_at := 5 } : InvestmentIdeaRead).updated_at = 5 ∧
    (∃ e ∈ sampleStore.rows, e.id = some 1 ∧
      ({ id := 1, title := "A", description := "D", idea_date := 3,
         status := InvestmentStatus.researching, notes := "N",
         created_at := 0, updated_at := 5 } : InvestmentIdeaRead).created_at
        = e.created_at) ∧
    (∀ e' ∈ ({ rows := [{ id := some 1, title := "A", description := "D",
                          idea_date := 3, status := .researching, notes := "N",
                          created_at := 0, updated_at := 5 }, sampleRow2],
               next_id := 3 } : Store).rows,
       e'.created_at ≤ e'.updated_at) :=
  (c9_updated_at_refresh_and_invariant sampleStore 1 5 0 1 {} { title := "x" }
      (by simp [sampleStore, sampleRow1, sampleRow2])
      (by simp [sampleStore, sampleRow1, sampleRow2])).1
    { id := 1, title := "A", description := "D", idea_date := 3,
      status := InvestmentStatus.researching, notes := "N",
      created_at := 0, updated_at := 5 }
    { rows := [{ id := some 1, title := "A", description := "D",
                 idea_date := 3, status := .researching, notes := "N",
                 created_at := 0, updated_at := 5 }, sampleRow2],
      next_id := 3 }
    (by rfl)

/-- The store obtained by three sequential creates of titles `a`, `b`, `c`
against a fresh database, at times `t1`, `t2`, `t3`. -/
def threeCreates (a b c : String) (d t1 t2 t3 : Nat) : Store :=
  (InvestmentService.create_investment_idea
    ((InvestmentService.create_investment_idea
      ((InvestmentService.create_investment_idea emptyStore
        { title := a } d t1).2.2)
      { title := b } d t2).2.2)
    { title := c } d t3).2.2

/-- C4: `get_all` succeeds on every store of committed rows and returns all
stored entities (a permutation of the read views of the rows), as many as
there are rows, ordered by `created_at` descending; in particular three
sequential creates of titles `a`, `b`, `c` at increasing times are listed
back as `[c, b, a]`. -/
theorem c4_get_all_ordered (s : Store) (hids : ∀ e ∈ s.rows, e.id ≠ none)
    (a b c : String) (d t1 t2 t3 : Nat) (h12 : t1 < t2) (h23 : t2 < t3) :
    (∃ l, InvestmentService.get_all_investment_ideas s = some l ∧
       l.length = s.rows.length ∧
       l.Pairwise (fun x y => y.created_at ≤ x.created_at) ∧
       l.Perm (s.rows.map readOf)) ∧
    (∃ l3, InvestmentService.get_all_investment_ideas
        (threeCreates a b c d t1 t2 t3) = some l3 ∧
       l3.map (fun r => r.title) = [c, b, a]) := by
  constructor
  · have hperm := sortByCreatedDesc_perm s.rows
    have hmap := mapM_model_validate (sortByCreatedDesc s.rows)
      (fun e he => hids e (hperm.mem_iff.mp he))
    refine ⟨(sortByCreatedDesc s.rows).map readOf, hmap, ?_, ?_, hperm.map readOf⟩
    · rw [List.length_map]
      exact hperm.length_eq
    · rw [List.pairwise_map]
      exact sorted_sortByCreatedDesc s.rows
  · have h21 : ¬ t2 < t1 := by omega
    have h31 : ¬ t3 < t1 := by omega
    have h32 : ¬ t3 < t2 := by omega
    simp [threeCreates, InvestmentService.create_investment_idea,
      InvestmentService.get_all_investment_ideas, emptyStore,
      sortByCreatedDesc, insertByCreatedDesc, h21, h31, h32,
      InvestmentIdeaRead.model_validate, List.mapM.loop]

/-- Witness for C4: the sample store and titles x, y, z at times 1 < 2 < 3. -/
theorem c4_get_all_ordered_witness :
    (∃ l, InvestmentService.get_all_investment_ideas sampleStore = some l ∧
       l.length = sampleStore.rows.length ∧
       l.Pairwise (fun x y => y.created_at ≤ x.created_at) ∧
       l.Perm (sampleStore.rows.map readOf)) ∧
    (∃ l3, InvestmentService.get_all_investment_ideas
        (threeCreates "x" "y" "z" 0 1 2 3) = some l3 ∧
       l3.map (fun r => r.title) = ["z", "y", "x"]) :=
  c4_get_all_ordered sampleStore
    (by simp [sampleStore, sampleRow1, sampleRow2])
    "x" "y" "z" 0 1 2 3 (by decide) (by decide)

/-- C5: `get_by_status S` succeeds and returns exactly the stored entities
whose status is `S` (a permutation of their read views), ordered by
`created_at` descending; when creation times are pairwise distinct it equals
`get_all` filtered to status `S` (identical ordering); when no row matches it
returns the empty sequence, not an error. -/
theorem c5_get_by_status (s : Store) (S : InvestmentStatus)
    (hids : ∀ e ∈ s.rows, e.id ≠ none)
    (hdist : s.rows.Pairwise (fun a b => a.created_at ≠ b.created_at)) :
    ∃ l la, InvestmentService.get_ideas_by_status s S = some l ∧
      InvestmentService.get_all_investment_ideas s = some la ∧
      l = la.filter (fun r => decide (r.status = S)) ∧
      l.Pairwise (fun x y => y.created_at ≤ x.created_at) ∧
      l.Perm ((s.rows.filter (fun e => decide (e.status = S))).map readOf) ∧
      (s.rows.filter (fun e => decide (e.status = S)) = [] → l = []) := by
  have hpermF := sortByCreatedDesc_perm (s.rows.filter (fun e => decide (e.status = S)))
  have hperm := sortByCreatedDesc_perm s.rows
  have hmapF := mapM_model_validate
    (sortByCreatedDesc (s.rows.filter (fun e => decide (e.status = S))))
    (fun e he => hids e (List.mem_filter.mp (hpermF.mem_iff.mp he)).1)
  have hmap := mapM_model_validate (sortByCreatedDesc s.rows)
    (fun e he => hids e (hperm.mem_iff.mp he))
  refine ⟨_, _, hmapF, hmap, ?_, ?_, ?_, ?_⟩
  · rw [List.filter_map]
    have hcomp : ((fun r : InvestmentIdeaRead => decide (r.status = S)) ∘ readOf)
        = (fun e : InvestmentIdea => decide (e.status = S)) := rfl
    rw [hcomp, ← sortByCreatedDesc_filter s.rows _ hdist]
  · rw [List.pairwise_map]
    exact sorted_sortByCreatedDesc _
  · exact hpermF.map readOf
  · intro h0
    rw [h0]
    rfl

/-- Witness for C5: the sample store filtered to the Watchlist status. -/
theorem c5_get_by_status_witness :
    ∃ l la, InvestmentService.get_ideas_by_status sampleStore
        InvestmentStatus.watchlist = some l ∧
      InvestmentService.get_all_investment_ideas sampleStore = some la ∧
      l = la.filter (fun r => decide (r.status = InvestmentStatus.watchlist)) ∧
      l.Pairwise (fun x y => y.created_at ≤ x.created_at) ∧
      l.Perm ((sampleStore.rows.filter
        (fun e => decide (e.status = InvestmentStatus.watchlist))).map readOf) ∧
      (sampleStore.rows.filter
        (fun e => decide (e.status = InvestmentStatus.watchlist)) = [] → l = []) :=
  c5_get_by_status sampleStore InvestmentStatus.watchlist
    (by simp [sampleStore, sampleRow1, sampleRow2])
    (by simp [sampleStore, sampleRow1, sampleRow2])

lemma setattrField_eq_some {α : Type} (cur : α) (o : Option (Option α))
    (h : o ≠ some none) :
    setattrField (some cur) o = some ((o.getD (some cur)).getD cur) := by
  rcases o with _ | (_ | v)
  · rfl
  · exact absurd rfl h
  · rfl

lemma commitRow_mergeUpdate_no_explicit_none (e : InvestmentIdea)
    (u : InvestmentIdeaUpdate) (now : Nat)
    (hT : u.title ≠ some none) (hD : u.description ≠ some none)
    (hDt : u.idea_date ≠ some none) (hS : u.status ≠ some none)
    (hN : u.notes ≠ some none) :
    commitRow (mergeUpdate e u now) = some
      { id := e.id,
        title := (u.title.getD (some e.title)).getD e.title,
        description := (u.description.getD (some e.description)).getD e.description,
        idea_date := (u.idea_date.getD (some e.idea_date)).getD e.idea_date,
        status := (u.status.getD (some e.status)).getD e.status,
        notes := (u.notes.getD (some e.notes)).getD e.notes,
        created_at := e.created_at, updated_at := now } := by
  simp only [mergeUpdate, commitRow,
    setattrField_eq_some e.title u.title hT,
    setattrField_eq_some e.description u.description hD,
    setattrField_eq_some e.idea_date u.idea_date hDt,
    setattrField_eq_some e.status u.status hS,
    setattrField_eq_some e.notes u.notes hN]

/-- C1 (amended): on an existing id, exactly the fields present in the
update's fields-set are applied and every absent field retains its prior
value — provided no field of the fields-set carries an explicit `None`.  A
field explicitly passed as `None` is applied like any other payload, not
treated as leave-unchanged (see the counterexample). -/
theorem c1_update_applies_exactly_set_fields (s : Store) (i now : Nat)
    (u : InvestmentIdeaUpdate) (e : InvestmentIdea)
    (hfind : s.rows.find? (fun x => decide (x.id = some i)) = some e)
    (hT : u.title ≠ some none) (hD : u.description ≠ some none)
    (hDt : u.idea_date ≠ some none) (hS : u.status ≠ some none)
    (hN : u.notes ≠ some none) :
    ∃ r s', InvestmentService.update_investment_idea s i u now
        = Except.ok (some r, s') ∧
      r.title = (u.title.getD (some e.title)).getD e.title ∧
      r.description = (u.description.getD (some e.description)).getD e.description ∧
      r.idea_date = (u.idea_date.getD (some e.idea_date)).getD e.idea_date ∧
      r.status = (u.status.getD (some e.status)).getD e.status ∧
      r.notes = (u.notes.getD (some e.notes)).getD e.notes ∧
      r.id = i ∧ r.created_at = e.created_at ∧ r.updated_at = now := by
  have hei : e.id = some i := by simpa using List.find?_some hfind
  have hc := commitRow_mergeUpdate_no_explicit_none e u now hT hD hDt hS hN
  simp [InvestmentService.update_investment_idea, hfind, hc,
    InvestmentIdeaRead.model_validate, hei]

/-- Witness for C1 (amended): updating only the title of sample row 1 leaves
description, date, status and notes at their prior values. -/
theorem c1_update_applies_exactly_set_fields_witness :
    ∃ r s', InvestmentService.update_investment_idea sampleStore 1
        { title := some (some "B2") } 5 = Except.ok (some r, s') ∧
      r.title = "B2" ∧ r.description = "D" ∧ r.idea_date = 3 ∧
      r.status = InvestmentStatus.researching ∧ r.notes = "N" ∧
      r.id = 1 ∧ r.created_at = 0 ∧ r.updated_at = 5 := by
  have h := c1_update_applies_exactly_set_fields sampleStore 1 5
    { title := some (some "B2") } sampleRow1 (by rfl)
    (by simp) (by simp) (by simp) (by simp) (by simp)
  simpa [sampleRow1] using h

/-- Counterexample to C1 as stated: on a store holding one row with title
"A", an update whose `title` field is explicitly passed as `None` does not
leave the title at its prior value — the assignment is applied, the commit
violates the NOT NULL column constraint, and no updated entity with the
prior title is returned. -/
theorem c1_counterexample :
    ¬ ∃ r s', InvestmentService.update_investment_idea
        { rows := [{ id := some 1, title := "A", description := "",
                     idea_date := 0, status := .researching, notes := "",
                     created_at := 0, updated_at := 0 }], next_id := 2 }
        1 { title := some none } 5 = Except.ok (some r, s') ∧
      r.title = "A" := by
  rintro ⟨r, s', heq, -⟩
  have hup : InvestmentService.update_investment_idea
      { rows := [{ id := some 1, title := "A", description := "",
                   idea_date := 0, status := .researching, notes := "",
                   created_at := 0, updated_at := 0 }], next_id := 2 }
      1 { title := some none } 5 = Except.error "NOT NULL constraint failed" := rfl
  rw [hup] at heq
  exact Except.noConfusion heq

end InvestmentIdeas
